import Mathlib

/-
Verification of the Wake-T tracking engine: the particle-bunch data model,
the drift beamline element, the tracker loop that produces snapshot
sequences, and the heap-level copy semantics of multi-output tracking.
The shipped sources contain only the tutorial that drives the engine, so
the engine components themselves are modelled from the specification
document; exact rational arithmetic stands in for the implementation's
floating-point arrays.
-/

namespace WakeT

/-- Modelled from the spec: the ParticleBunch state container (§3) — seven
per-particle arrays (charge `q`, transverse positions `x`, `y`, co-moving
longitudinal coordinate `xi`, momenta `px`, `py`, `pz`), a bunch-level `name`
and a cumulative `prop_distance` in meters.  The engine class itself is not
under the shipped sources; only its tutorial caller is. -/
structure ParticleBunch where
  name : String
  q : List ℚ
  x : List ℚ
  y : List ℚ
  xi : List ℚ
  px : List ℚ
  py : List ℚ
  pz : List ℚ
  prop_distance : ℚ
deriving Repr, DecidableEq

/-- Particle count of a bunch: the length of its charge array. -/
def ParticleBunch.n (b : ParticleBunch) : ℕ := b.q.length

/-- Well-formedness invariant from the spec (§3): all per-particle arrays
have identical length. -/
def ParticleBunch.wf (b : ParticleBunch) : Prop :=
  b.x.length = b.n ∧ b.y.length = b.n ∧ b.xi.length = b.n ∧
  b.px.length = b.n ∧ b.py.length = b.n ∧ b.pz.length = b.n

instance (b : ParticleBunch) : Decidable b.wf := by
  unfold ParticleBunch.wf
  infer_instance

/-- Modelled from the spec: the bunch-construction boundary (§6, §7) —
accepts seven parallel arrays `(q, x, y, z, px, py, pz)` of equal length plus
a name and returns a ParticleBunch; the fourth positional array `z` is stored
as the co-moving coordinate `xi`; mismatched array lengths are a fatal
configuration error detected eagerly at construction time, modelled as
`none`.  The concrete constructor is not under the shipped sources. -/
def mkParticleBunch (q x y z px py pz : List ℚ) (name : String) :
    Option ParticleBunch :=
  if x.length = q.length ∧ y.length = q.length ∧ z.length = q.length ∧
     px.length = q.length ∧ py.length = q.length ∧ pz.length = q.length then
    some ⟨name, q, x, y, z, px, py, pz, 0⟩
  else
    none

/-- Modelled from the spec: the co-moving longitudinal slope dξ/dz of a free
particle with momentum `(px, py, pz)` (§4.3, glossary).  The spec fixes only
that ξ is "shifted by the appropriate co-moving relation", a pure function of
the momentum; the model uses the standard second-order accelerator-physics
drift relation, exactly representable over ℚ. -/
def xiSlope (px py pz : ℚ) : ℚ := -(px ^ 2 + py ^ 2) / (2 * pz ^ 2)

/-- Linear update of one coordinate over a longitudinal step `c` with slope
`sl p` determined by the momentum data `p`. -/
def shiftBy {β : Type} (sl : β → ℚ) (c : ℚ) (u : ℚ) (p : β) : ℚ :=
  u + c * sl p

/-- Transverse slope `dx/dz = p_transverse / pz` of a free particle. -/
def transSlope (p : ℚ × ℚ) : ℚ := p.1 / p.2

/-- Transverse update of one coordinate over a longitudinal step `c`. -/
def posShift (c : ℚ) : ℚ → ℚ × ℚ → ℚ := shiftBy transSlope c

/-- Co-moving slope of ξ as a function of the momentum triple. -/
def comovSlope (p : ℚ × ℚ × ℚ) : ℚ := xiSlope p.1 p.2.1 p.2.2

/-- Co-moving update of ξ over a longitudinal step `c`. -/
def comovShift (c : ℚ) : ℚ → ℚ × ℚ × ℚ → ℚ := shiftBy comovSlope c

/-- Modelled from the spec: the Integrator advance (§4.3) specialised to a
zero-field element — each particle is advanced independently over the
longitudinal step `dz` with momenta unchanged, `dx/dz = px/pz`,
`dy/dz = py/pz`, and ξ following the co-moving slope; `dz = 0` is a no-op.
The Integrator component is not under the shipped sources. -/
def driftAdvance (b : ParticleBunch) (dz : ℚ) : ParticleBunch :=
  { b with
    x := List.zipWith (posShift dz) b.x (b.px.zip b.pz)
    y := List.zipWith (posShift dz) b.y (b.py.zip b.pz)
    xi := List.zipWith (comovShift dz) b.xi (b.px.zip (b.py.zip b.pz)) }

/-- Modelled from the spec: the Tracker loop (§4.4) — after each of the `k`
equal output segments of size `dz` the bunch is advanced, its cumulative
propagation distance is increased by `dz`, and an independent snapshot is
appended to the output sequence. -/
def trackLoop (adv : ParticleBunch → ℚ → ParticleBunch) (dz : ℚ) :
    ℕ → ParticleBunch → List ParticleBunch
  | 0, _ => []
  | k + 1, b =>
    let b1 := { adv b dz with prop_distance := b.prop_distance + dz }
    b1 :: trackLoop adv dz k b1

/-- Modelled from the spec: the Tracker (§4.4) — partitions `[0, length]`
into `n_out` equal segments (the default equal-spacing policy) and drives
the per-segment advance `adv`, capturing one snapshot at each segment
boundary.  The Tracker component is not under the shipped sources. -/
def Tracker.track (adv : ParticleBunch → ℚ → ParticleBunch) (length : ℚ)
    (n_out : ℕ) (b : ParticleBunch) : List ParticleBunch :=
  trackLoop adv (length / (n_out : ℚ)) n_out b

/-- Modelled from the spec: the Drift beamline element (§3) — a field-free
element with a fixed `length` (meters) and a fixed output count `n_out`,
both immutable after construction. -/
structure Drift where
  length : ℚ
  n_out : ℕ
deriving Repr, DecidableEq

/-- Modelled from the spec: Drift construction (§7) — `length ≤ 0` or
`n_out ≤ 0` is a fatal configuration error detected eagerly at construction
time, modelled as `none`; a constructed element is always valid. -/
def mkDrift (length : ℚ) (n_out : ℕ) : Option Drift :=
  if 0 < length ∧ 0 < n_out then some ⟨length, n_out⟩ else none

/-- Snapshot sequence produced by tracking a bunch through a drift: the
Tracker driven by the zero-field integrator advance. -/
def Drift.track (d : Drift) (b : ParticleBunch) : List ParticleBunch :=
  Tracker.track driftAdvance d.length d.n_out b

/-- Result of the public `track` entry point (§4.4, §6): a single bunch when
`n_out = 1`, an ordered snapshot sequence otherwise — the documented,
consistent choice of the model. -/
inductive TrackResult where
  | single (b : ParticleBunch)
  | seq (bs : List ParticleBunch)
deriving Repr, DecidableEq

/-- Modelled from the spec: the diagnostics directory policy of `track`
(§6) — when `opmd_diag` is true and `diag_dir` is unset the conventional
relative path `"diags"` is used; no diagnostics directory otherwise. -/
def diagDirectory (opmd_diag : Bool) (diag_dir : Option String) :
    Option String :=
  if opmd_diag then some (diag_dir.getD "diags") else none

/-- Modelled from the spec: the sole public entry point
`track(bunch, n_out, opmd_diag, diag_dir)` of a beamline element (§6) —
returns either a single ParticleBunch (when `n_out = 1`) or a snapshot
sequence, together with the diagnostics directory actually used. -/
def Drift.trackCall (d : Drift) (b : ParticleBunch) (opmd_diag : Bool)
    (diag_dir : Option String) : TrackResult × Option String :=
  let outs := d.track b
  (if d.n_out = 1 then TrackResult.single (outs.getD 0 b)
   else TrackResult.seq outs,
   diagDirectory opmd_diag diag_dir)

/-- Modelled from the spec: the mutable array store (§3 "Ownership", §4.1) —
per-particle arrays live in a heap of numbered cells so that aliasing between
snapshots is expressible; `next` is the next fresh cell id. -/
structure Heap where
  next : ℕ
  data : ℕ → List ℚ

/-- In-place mutation of the array stored at cell `id`. -/
def Heap.write (h : Heap) (id : ℕ) (v : List ℚ) : Heap :=
  ⟨h.next, fun m => if m = id then v else h.data m⟩

/-- Heap-level view of a bunch: the seven per-particle arrays are cell ids
into a Heap rather than inline values. -/
structure BunchRef where
  name : String
  qId : ℕ
  xId : ℕ
  yId : ℕ
  xiId : ℕ
  pxId : ℕ
  pyId : ℕ
  pzId : ℕ
  prop_distance : ℚ
deriving Repr, DecidableEq

/-- The heap cells referenced by a bunch. -/
def BunchRef.ids (r : BunchRef) : List ℕ :=
  [r.qId, r.xId, r.yId, r.xiId, r.pxId, r.pyId, r.pzId]

/-- A bunch reference is valid in a heap when all its cells are allocated. -/
def BunchRef.wfIn (r : BunchRef) (h : Heap) : Prop :=
  ∀ id ∈ r.ids, id < h.next

instance (r : BunchRef) (h : Heap) : Decidable (r.wfIn h) := by
  unfold BunchRef.wfIn
  infer_instance

/-- Read a bunch value out of the heap. -/
def BunchRef.load (r : BunchRef) (h : Heap) : ParticleBunch :=
  ⟨r.name, h.data r.qId, h.data r.xId, h.data r.yId, h.data r.xiId,
   h.data r.pxId, h.data r.pyId, h.data r.pzId, r.prop_distance⟩

/-- Modelled from the spec: snapshot capture (§4.1, §4.4) — copying a bunch
allocates seven fresh heap cells, one per particle array, so the copy shares
no mutable storage with any other bunch. -/
def Heap.capture (h : Heap) (b : ParticleBunch) : Heap × BunchRef :=
  (⟨h.next + 7, fun m =>
      if m = h.next then b.q
      else if m = h.next + 1 then b.x
      else if m = h.next + 2 then b.y
      else if m = h.next + 3 then b.xi
      else if m = h.next + 4 then b.px
      else if m = h.next + 5 then b.py
      else if m = h.next + 6 then b.pz
      else h.data m⟩,
   ⟨b.name, h.next, h.next + 1, h.next + 2, h.next + 3, h.next + 4,
    h.next + 5, h.next + 6, b.prop_distance⟩)

/-- Capture every bunch of a snapshot sequence into the heap, left to
right, each one in its own block of seven fresh cells. -/
def Heap.captureList (h : Heap) : List ParticleBunch → Heap × List BunchRef
  | [] => (h, [])
  | b :: bs =>
    let p := h.capture b
    let p2 := p.1.captureList bs
    (p2.1, p.2 :: p2.2)

/-- Overwrite the arrays of an existing bunch reference in place with the
values of `b` (the in-place mutation of the input bunch during tracking). -/
def Heap.writeBunch (h : Heap) (r : BunchRef) (b : ParticleBunch) : Heap :=
  ((((((h.write r.qId b.q).write r.xId b.x).write r.yId b.y).write
      r.xiId b.xi).write r.pxId b.px).write r.pyId b.py).write r.pzId b.pz

/-- Modelled from the spec: heap-level tracking through a drift (§3
"Ownership", §4.4) — the input bunch is read from the heap, the snapshot
sequence is computed, each snapshot is captured as an independent copy in
fresh cells, and the input bunch's own arrays are mutated in place to the
final state. -/
def Drift.trackH (d : Drift) (h : Heap) (r : BunchRef) :
    Heap × List BunchRef :=
  let b := r.load h
  let outs := d.track b
  let p := h.captureList outs
  (p.1.writeBunch r (outs.getLastD b), p.2)

/-- Sample two-particle bunch used by the concrete witnesses. -/
def sampleBunch : ParticleBunch :=
  ⟨"sample", [1/2, 1/2], [0, 1], [0, 2], [0, 3], [1, 2], [2, 1], [10, 20], 0⟩

/-- State of `sampleBunch` after a 1/100 m drift, used by a witness. -/
def sampleOut : ParticleBunch :=
  ⟨"sample", [1/2, 1/2], [1/1000, 1001/1000], [1/500, 4001/2000],
   [-1/4000, 47999/16000], [1, 2], [2, 1], [10, 20], 1/100⟩

/-- Tiny heap with one allocated cell, used by the heap-level witnesses. -/
def sampleHeap : Heap := ⟨1, fun _ => []⟩

/-- Reference to an empty bunch stored in cell 0 of `sampleHeap`. -/
def sampleRef : BunchRef := ⟨"b", 0, 0, 0, 0, 0, 0, 0, 0⟩

/-- First snapshot reference produced by the heap-level witness run. -/
def sampleRi : BunchRef := ⟨"b", 1, 2, 3, 4, 5, 6, 7, 1/200⟩

/-- Second snapshot reference produced by the heap-level witness run. -/
def sampleRj : BunchRef := ⟨"b", 8, 9, 10, 11, 12, 13, 14, 1/100⟩

/-- Second tiny heap, with a different layout, for the determinism
witness. -/
def sampleHeap2 : Heap := ⟨3, fun _ => []⟩

/-- Reference to an empty bunch stored in cell 2 of `sampleHeap2`. -/
def sampleRef2 : BunchRef := ⟨"b", 2, 2, 2, 2, 2, 2, 2, 0⟩

theorem trackLoop_length (adv : ParticleBunch → ℚ → ParticleBunch) (dz : ℚ) :
    ∀ (k : ℕ) (b : ParticleBunch), (trackLoop adv dz k b).length = k := by
  intro k
  induction k with
  | zero => intro b; rfl
  | succ k ih => intro b; simp [trackLoop, ih]

theorem trackLoop_prop (adv : ParticleBunch → ℚ → ParticleBunch) (dz : ℚ) :
    ∀ (k i : ℕ) (b : ParticleBunch), i < k →
      ((trackLoop adv dz k b)[i]?).map ParticleBunch.prop_distance =
        some (b.prop_distance + ((i : ℚ) + 1) * dz) := by
  intro k
  induction k with
  | zero => intro i b h; omega
  | succ k ih =>
    intro i b h
    cases i with
    | zero =>
      simp [trackLoop]
    | succ i =>
      have h2 := ih i { adv b dz with prop_distance := b.prop_distance + dz }
        (by omega)
      simp only [trackLoop, List.getElem?_cons_succ]
      rw [h2]
      congr 1
      push_cast
      ring

theorem zipWith_zipWith_same {α β : Type} (f g : α → β → α) (l : List α)
    (m : List β) :
    List.zipWith f (List.zipWith g l m) m =
      List.zipWith (fun u p => f (g u p) p) l m := by
  induction l generalizing m with
  | nil => simp
  | cons a l ih =>
    cases m with
    | nil => simp
    | cons x m => simp [ih]

theorem zipWith_shiftBy_shiftBy {β : Type} (sl : β → ℚ) (c d : ℚ)
    (l : List ℚ) (m : List β) :
    List.zipWith (shiftBy sl d) (List.zipWith (shiftBy sl c) l m) m =
      List.zipWith (shiftBy sl (c + d)) l m := by
  rw [zipWith_zipWith_same]
  have hf : (fun u p => shiftBy sl d (shiftBy sl c u p) p) =
      shiftBy sl (c + d) := by
    funext u p
    simp only [shiftBy]
    ring
  rw [hf]

theorem trackLoop_drift_state (dz : ℚ) :
    ∀ (k i : ℕ) (b s : ParticleBunch),
      (trackLoop driftAdvance dz k b)[i]? = some s →
      s.name = b.name ∧ s.q = b.q ∧ s.px = b.px ∧ s.py = b.py ∧
      s.pz = b.pz ∧
      s.x = List.zipWith (posShift (((i : ℚ) + 1) * dz)) b.x
        (b.px.zip b.pz) ∧
      s.y = List.zipWith (posShift (((i : ℚ) + 1) * dz)) b.y
        (b.py.zip b.pz) ∧
      s.xi = List.zipWith (comovShift (((i : ℚ) + 1) * dz)) b.xi
        (b.px.zip (b.py.zip b.pz)) := by
  intro k
  induction k with
  | zero => intro i b s h; simp [trackLoop] at h
  | succ k ih =>
    intro i b s h
    cases i with
    | zero =>
      simp only [trackLoop, List.getElem?_cons_zero, Option.some.injEq] at h
      subst h
      have hc : (((0 : ℕ) : ℚ) + 1) * dz = dz := by norm_num
      rw [hc]
      exact ⟨rfl, rfl, rfl, rfl, rfl, rfl, rfl, rfl⟩
    | succ i =>
      simp only [trackLoop, List.getElem?_cons_succ] at h
      obtain ⟨hn, hq, hpx, hpy, hpz, hx, hy, hxi⟩ := ih i _ s h
      have hstep : dz + ((i : ℚ) + 1) * dz = (((i + 1 : ℕ) : ℚ) + 1) * dz := by
        push_cast
        ring
      refine ⟨hn, hq, hpx, hpy, hpz, ?_, ?_, ?_⟩
      · rw [hx]
        show List.zipWith (shiftBy transSlope (((i : ℚ) + 1) * dz))
          (List.zipWith (shiftBy transSlope dz) b.x (b.px.zip b.pz))
          (b.px.zip b.pz) = _
        rw [zipWith_shiftBy_shiftBy, hstep]
        rfl
      · rw [hy]
        show List.zipWith (shiftBy transSlope (((i : ℚ) + 1) * dz))
          (List.zipWith (shiftBy transSlope dz) b.y (b.py.zip b.pz))
          (b.py.zip b.pz) = _
        rw [zipWith_shiftBy_shiftBy, hstep]
        rfl
      · rw [hxi]
        show List.zipWith (shiftBy comovSlope (((i : ℚ) + 1) * dz))
          (List.zipWith (shiftBy comovSlope dz) b.xi
            (b.px.zip (b.py.zip b.pz)))
          (b.px.zip (b.py.zip b.pz)) = _
        rw [zipWith_shiftBy_shiftBy, hstep]
        rfl

/-- C1: for every bunch and every drift element with `n_out = k ≥ 1`,
tracking returns a sequence of exactly `k` ParticleBunch snapshots. -/
theorem track_output_count (d : Drift) (b : ParticleBunch)
    (_hk : 1 ≤ d.n_out) : (d.track b).length = d.n_out :=
  trackLoop_length driftAdvance (d.length / (d.n_out : ℚ)) d.n_out b

theorem track_output_count_witness :
    1 ≤ (5 : ℕ) ∧ ((⟨1/100, 5⟩ : Drift).track sampleBunch).length = 5 :=
  ⟨by decide, track_output_count ⟨1/100, 5⟩ sampleBunch (by decide)⟩

theorem track_prop_value (d : Drift) (b : ParticleBunch) (i : ℕ)
    (hi : i < d.n_out) (hi2 : i < (d.track b).length) :
    ((d.track b).get ⟨i, hi2⟩).prop_distance =
      b.prop_distance + ((i : ℚ) + 1) * (d.length / (d.n_out : ℚ)) := by
  have h := trackLoop_prop driftAdvance (d.length / (d.n_out : ℚ))
    d.n_out i b hi
  rw [show trackLoop driftAdvance (d.length / (d.n_out : ℚ)) d.n_out b =
    d.track b from rfl] at h
  rw [List.getElem?_eq_getElem hi2] at h
  simpa using h

/-- C2: the propagation distances of the snapshot sequence are strictly
increasing; the k-th snapshot (1-indexed) sits at the prior cumulative
distance plus `k·length/n_out`; and the last snapshot sits at the prior
cumulative distance plus the element's length. -/
theorem track_distances (d : Drift) (b : ParticleBunch)
    (hL : 0 < d.length) (hn : 1 ≤ d.n_out) :
    List.Pairwise (fun u v => u < v)
      ((d.track b).map ParticleBunch.prop_distance) ∧
    (∀ k : ℕ, 1 ≤ k → k ≤ d.n_out →
      (((d.track b)[k - 1]?).map ParticleBunch.prop_distance =
        some (b.prop_distance + (k : ℚ) * d.length / (d.n_out : ℚ)))) ∧
    ((d.track b).getLast?).map ParticleBunch.prop_distance =
      some (b.prop_distance + d.length) := by
  have hlen : (d.track b).length = d.n_out :=
    trackLoop_length driftAdvance (d.length / (d.n_out : ℚ)) d.n_out b
  have hncast : (0 : ℚ) < (d.n_out : ℚ) := by exact_mod_cast hn
  have hdz : (0 : ℚ) < d.length / (d.n_out : ℚ) := div_pos hL hncast
  refine ⟨?_, ?_, ?_⟩
  · rw [List.pairwise_iff_getElem]
    intro i j hi hj hij
    have hi2 : i < (d.track b).length := by simpa using hi
    have hj2 : j < (d.track b).length := by simpa using hj
    simp only [List.getElem_map]
    have hvi := track_prop_value d b i (by omega) hi2
    have hvj := track_prop_value d b j (by omega) hj2
    simp only [List.get_eq_getElem] at hvi hvj
    rw [hvi, hvj]
    have hcast : ((i : ℚ) + 1) < ((j : ℚ) + 1) := by
      exact_mod_cast Nat.succ_lt_succ hij
    have := mul_lt_mul_of_pos_right hcast hdz
    linarith
  · intro k hk1 hk2
    have hi2 : k - 1 < (d.track b).length := by omega
    rw [List.getElem?_eq_getElem hi2]
    have hv := track_prop_value d b (k - 1) (by omega) hi2
    simp only [List.get_eq_getElem] at hv
    simp only [Option.map_some']
    rw [hv]
    have hcast : ((k - 1 : ℕ) : ℚ) + 1 = (k : ℚ) := by
      push_cast [Nat.cast_sub hk1]
      ring
    rw [hcast, mul_div_assoc]
  · rw [List.getLast?_eq_getElem?, hlen]
    have hi2 : d.n_out - 1 < (d.track b).length := by omega
    rw [List.getElem?_eq_getElem hi2]
    have hv := track_prop_value d b (d.n_out - 1) (by omega) hi2
    simp only [List.get_eq_getElem] at hv
    simp only [Option.map_some']
    rw [hv]
    have hcast : ((d.n_out - 1 : ℕ) : ℚ) + 1 = (d.n_out : ℚ) := by
      push_cast [Nat.cast_sub hn]
      ring
    rw [hcast]
    have hmul : (d.n_out : ℚ) * (d.length / (d.n_out : ℚ)) = d.length := by
      field_simp
    rw [hmul]

theorem track_distances_witness :
    (0 : ℚ) < 1/100 ∧ 1 ≤ (2 : ℕ) ∧
    (List.Pairwise (fun u v => u < v)
      (((⟨1/100, 2⟩ : Drift).track sampleBunch).map
        ParticleBunch.prop_distance) ∧
    (∀ k : ℕ, 1 ≤ k → k ≤ (2 : ℕ) →
      ((((⟨1/100, 2⟩ : Drift).track sampleBunch)[k - 1]?).map
          ParticleBunch.prop_distance =
        some (sampleBunch.prop_distance + (k : ℚ) * (1/100) / (2 : ℚ)))) ∧
    (((⟨1/100, 2⟩ : Drift).track sampleBunch).getLast?).map
        ParticleBunch.prop_distance =
      some (sampleBunch.prop_distance + 1/100)) :=
  ⟨by norm_num, by decide,
   track_distances ⟨1/100, 2⟩ sampleBunch (by norm_num) (by decide)⟩

/-- C3: every snapshot produced by tracking has exactly the particle count
of the input bunch, and keeps all per-particle arrays at that common
length — tracking never changes the particle count. -/
theorem track_particle_count (d : Drift) (b : ParticleBunch) (hwf : b.wf)
    (_hk : 1 ≤ d.n_out) : ∀ s ∈ d.track b, s.n = b.n ∧ s.wf := by
  intro s hs
  obtain ⟨i, hi, rfl⟩ := List.getElem_of_mem hs
  have h := trackLoop_drift_state (d.length / (d.n_out : ℚ)) d.n_out i b
    ((d.track b)[i]) (List.getElem?_eq_getElem hi)
  obtain ⟨_, hq, hpx, hpy, hpz, hx, hy, hxi⟩ := h
  obtain ⟨h1, h2, h3, h4, h5, h6⟩ := hwf
  simp only [ParticleBunch.n] at h1 h2 h3 h4 h5 h6 ⊢
  constructor
  · rw [hq]
  · simp only [ParticleBunch.wf, ParticleBunch.n, hq, hpx, hpy, hpz, hx, hy,
      hxi, List.length_zipWith, List.length_zip]
    omega

theorem track_particle_count_witness :
    sampleBunch.wf ∧ 1 ≤ (2 : ℕ) ∧
    ∀ s ∈ (⟨1/100, 2⟩ : Drift).track sampleBunch,
      s.n = sampleBunch.n ∧ s.wf :=
  ⟨by decide, by decide,
   track_particle_count ⟨1/100, 2⟩ sampleBunch (by decide) (by decide)⟩

theorem getD_zipWith_posShift (c : ℚ) (l p1 p2 : List ℚ) (j : ℕ)
    (hj : j < l.length) (h1 : j < p1.length) (h2 : j < p2.length) :
    (List.zipWith (posShift c) l (p1.zip p2)).getD j 0 =
      l.getD j 0 + c * (p1.getD j 0 / p2.getD j 0) := by
  have hlen : j < (List.zipWith (posShift c) l (p1.zip p2)).length := by
    simp only [List.length_zipWith, List.length_zip]
    omega
  rw [List.getD_eq_getElem?_getD, List.getElem?_eq_getElem hlen,
    List.getD_eq_getElem?_getD, List.getElem?_eq_getElem hj,
    List.getD_eq_getElem?_getD, List.getElem?_eq_getElem h1,
    List.getD_eq_getElem?_getD, List.getElem?_eq_getElem h2]
  simp [List.getElem_zipWith, List.getElem_zip, posShift, shiftBy,
    transSlope]

theorem getD_zipWith_comovShift (c : ℚ) (l p1 p2 p3 : List ℚ) (j : ℕ)
    (hj : j < l.length) (h1 : j < p1.length) (h2 : j < p2.length)
    (h3 : j < p3.length) :
    (List.zipWith (comovShift c) l (p1.zip (p2.zip p3))).getD j 0 =
      l.getD j 0 +
        c * xiSlope (p1.getD j 0) (p2.getD j 0) (p3.getD j 0) := by
  have hlen : j <
      (List.zipWith (comovShift c) l (p1.zip (p2.zip p3))).length := by
    simp only [List.length_zipWith, List.length_zip]
    omega
  rw [List.getD_eq_getElem?_getD, List.getElem?_eq_getElem hlen,
    List.getD_eq_getElem?_getD, List.getElem?_eq_getElem hj,
    List.getD_eq_getElem?_getD, List.getElem?_eq_getElem h1,
    List.getD_eq_getElem?_getD, List.getElem?_eq_getElem h2,
    List.getD_eq_getElem?_getD, List.getElem?_eq_getElem h3]
  simp [List.getElem_zipWith, List.getElem_zip, comovShift, shiftBy,
    comovSlope]

/-- C4: tracking a bunch through a zero-field drift of length `L > 0`
leaves all momenta (and charges) unchanged and moves every particle by the
analytic free-space result: `x_final = x_initial + L·px/pz` (likewise for
`y`), with ξ shifted by `L` times the model's co-moving slope. -/
theorem drift_closed_form (b : ParticleBunch) (hwf : b.wf) (L : ℚ)
    (_hL : 0 < L) (k : ℕ) (hk : 1 ≤ k) (s : ParticleBunch)
    (hs : ((⟨L, k⟩ : Drift).track b).getLast? = some s) :
    s.px = b.px ∧ s.py = b.py ∧ s.pz = b.pz ∧ s.q = b.q ∧
    (∀ j, j < b.n →
      s.x.getD j 0 = b.x.getD j 0 + L * (b.px.getD j 0 / b.pz.getD j 0)) ∧
    (∀ j, j < b.n →
      s.y.getD j 0 = b.y.getD j 0 + L * (b.py.getD j 0 / b.pz.getD j 0)) ∧
    (∀ j, j < b.n →
      s.xi.getD j 0 = b.xi.getD j 0 +
        L * xiSlope (b.px.getD j 0) (b.py.getD j 0) (b.pz.getD j 0)) := by
  rw [List.getLast?_eq_getElem?] at hs
  have hlen : ((⟨L, k⟩ : Drift).track b).length = k :=
    trackLoop_length driftAdvance (L / (k : ℚ)) k b
  rw [hlen] at hs
  have h := trackLoop_drift_state (L / (k : ℚ)) k (k - 1) b s hs
  obtain ⟨_, hq, hpx, hpy, hpz, hx, hy, hxi⟩ := h
  have hk0 : ((k : ℚ)) ≠ 0 := Nat.cast_ne_zero.mpr (by omega)
  have hshift : (((k - 1 : ℕ) : ℚ) + 1) * (L / (k : ℚ)) = L := by
    have hc : ((k - 1 : ℕ) : ℚ) + 1 = (k : ℚ) := by
      push_cast [Nat.cast_sub hk]
      ring
    rw [hc]
    field_simp
  rw [hshift] at hx hy hxi
  obtain ⟨h1, h2, h3, h4, h5, h6⟩ := hwf
  refine ⟨hpx, hpy, hpz, hq, ?_, ?_, ?_⟩
  · intro j hj
    rw [hx]
    exact getD_zipWith_posShift L b.x b.px b.pz j (by omega) (by omega)
      (by omega)
  · intro j hj
    rw [hy]
    exact getD_zipWith_posShift L b.y b.py b.pz j (by omega) (by omega)
      (by omega)
  · intro j hj
    rw [hxi]
    exact getD_zipWith_comovShift L b.xi b.px b.py b.pz j (by omega)
      (by omega) (by omega) (by omega)

theorem drift_closed_form_witness :
    sampleBunch.wf ∧ (0 : ℚ) < 1/100 ∧ 1 ≤ (2 : ℕ) ∧
    ((⟨1/100, 2⟩ : Drift).track sampleBunch).getLast? = some sampleOut ∧
    (sampleOut.px = sampleBunch.px ∧ sampleOut.py = sampleBunch.py ∧
     sampleOut.pz = sampleBunch.pz ∧ sampleOut.q = sampleBunch.q ∧
     (∀ j, j < sampleBunch.n →
       sampleOut.x.getD j 0 = sampleBunch.x.getD j 0 +
         (1/100) * (sampleBunch.px.getD j 0 / sampleBunch.pz.getD j 0)) ∧
     (∀ j, j < sampleBunch.n →
       sampleOut.y.getD j 0 = sampleBunch.y.getD j 0 +
         (1/100) * (sampleBunch.py.getD j 0 / sampleBunch.pz.getD j 0)) ∧
     (∀ j, j < sampleBunch.n →
       sampleOut.xi.getD j 0 = sampleBunch.xi.getD j 0 +
         (1/100) * xiSlope (sampleBunch.px.getD j 0)
           (sampleBunch.py.getD j 0) (sampleBunch.pz.getD j 0))) :=
  have hs : ((⟨1/100, 2⟩ : Drift).track sampleBunch).getLast? =
      some sampleOut := by
    norm_num [Drift.track, Tracker.track, trackLoop, driftAdvance,
      sampleBunch, sampleOut, posShift, comovShift, shiftBy, transSlope,
      comovSlope, xiSlope]
  ⟨by decide, by norm_num, by decide, hs,
   drift_closed_form sampleBunch (by decide) (1/100) (by norm_num) 2
     (by decide) sampleOut hs⟩

theorem zipWith_left_eq {β : Type} (l : List ℚ) (m : List β)
    (h : l.length ≤ m.length) :
    List.zipWith (fun u (_ : β) => u) l m = l := by
  induction l generalizing m with
  | nil => simp
  | cons a l ih =>
    cases m with
    | nil => simp at h
    | cons x m =>
      simp only [List.zipWith_cons_cons, List.cons.injEq, true_and]
      exact ih m (by simpa using h)

theorem driftAdvance_zero (b : ParticleBunch) (hwf : b.wf) :
    driftAdvance b 0 = b := by
  obtain ⟨h1, h2, h3, h4, h5, h6⟩ := hwf
  simp only [ParticleBunch.n] at h1 h2 h3 h4 h5 h6
  have hp : posShift 0 = fun u (_ : ℚ × ℚ) => u := by
    funext u p
    simp [posShift, shiftBy]
  have hc : comovShift 0 = fun u (_ : ℚ × ℚ × ℚ) => u := by
    funext u p
    simp [comovShift, shiftBy]
  have hbx : b.x.length ≤ (b.px.zip b.pz).length := by
    rw [List.length_zip]
    omega
  have hby : b.y.length ≤ (b.py.zip b.pz).length := by
    rw [List.length_zip]
    omega
  have hbxi : b.xi.length ≤ (b.px.zip (b.py.zip b.pz)).length := by
    simp only [List.length_zip]
    omega
  unfold driftAdvance
  rw [hp, hc, zipWith_left_eq b.x _ hbx, zipWith_left_eq b.y _ hby,
    zipWith_left_eq b.xi _ hbxi]

theorem trackLoop_fixpoint (adv : ParticleBunch → ℚ → ParticleBunch)
    (dz : ℚ) (b : ParticleBunch)
    (hfix : { adv b dz with prop_distance := b.prop_distance + dz } = b) :
    ∀ m, trackLoop adv dz m b = List.replicate m b := by
  intro m
  induction m with
  | zero => rfl
  | succ m ih =>
    show ({ adv b dz with prop_distance := b.prop_distance + dz } ::
        trackLoop adv dz m
          { adv b dz with prop_distance := b.prop_distance + dz }) =
      List.replicate (m + 1) b
    rw [hfix, ih, List.replicate_succ]

/-- C5: tracking through a drift of length 0 with `n_out = k ≥ 1` returns
`k` snapshots identical to the input bunch (positions, momenta and prior
cumulative propagation distance all unchanged), and the integrator advance
over `dz = 0` is a no-op. -/
theorem zero_length_noop (b : ParticleBunch) (hwf : b.wf) (k : ℕ)
    (_hk : 1 ≤ k) :
    (⟨0, k⟩ : Drift).track b = List.replicate k b ∧
    driftAdvance b 0 = b := by
  have hadv := driftAdvance_zero b hwf
  constructor
  · show trackLoop driftAdvance ((0 : ℚ) / (k : ℚ)) k b = List.replicate k b
    rw [zero_div]
    refine trackLoop_fixpoint driftAdvance 0 b ?_ k
    simp only [hadv, add_zero]
  · exact hadv

theorem zero_length_noop_witness :
    sampleBunch.wf ∧ 1 ≤ (3 : ℕ) ∧
    ((⟨0, 3⟩ : Drift).track sampleBunch = List.replicate 3 sampleBunch ∧
     driftAdvance sampleBunch 0 = sampleBunch) :=
  ⟨by decide, by decide, zero_length_noop sampleBunch (by decide) 3 (by decide)⟩

/-- C7: the public entry point takes `(bunch, opmd_diag, diag_dir)` on an
element carrying `n_out`, returns either a single ParticleBunch or a
snapshot sequence, and when `opmd_diag` is true with `diag_dir` unset the
diagnostics directory defaults to the relative path `"diags"`. -/
theorem track_entry_point (d : Drift) (b : ParticleBunch) (o : Bool)
    (dir : Option String) :
    (d.trackCall b true none).2 = some "diags" ∧
    (d.trackCall b o dir).2 = diagDirectory o dir ∧
    ((d.trackCall b o dir).1 =
        TrackResult.single ((d.track b).getD 0 b) ∨
     (d.trackCall b o dir).1 = TrackResult.seq (d.track b)) := by
  refine ⟨rfl, rfl, ?_⟩
  by_cases h : d.n_out = 1
  · left
    simp [Drift.trackCall, h]
  · right
    simp [Drift.trackCall, h]

/-- C8: invalid configurations fail at construction time — a drift with
`length ≤ 0` or `n_out ≤ 0` and a bunch with mismatched array lengths are
rejected eagerly (`none`), and any successfully constructed object already
satisfies its invariant, so the error can never surface later during a
track call. -/
theorem eager_config_errors (L : ℚ) (n : ℕ) (q x y z px py pz : List ℚ)
    (nm : String) :
    (mkDrift L n = none ↔ ¬(0 < L ∧ 0 < n)) ∧
    (∀ d, mkDrift L n = some d → 0 < d.length ∧ 0 < d.n_out) ∧
    (mkParticleBunch q x y z px py pz nm = none ↔
      ¬(x.length = q.length ∧ y.length = q.length ∧ z.length = q.length ∧
        px.length = q.length ∧ py.length = q.length ∧
        pz.length = q.length)) ∧
    (∀ b, mkParticleBunch q x y z px py pz nm = some b → b.wf) := by
  refine ⟨?_, ?_, ?_, ?_⟩
  · unfold mkDrift
    split <;> simp_all
  · intro d hd
    unfold mkDrift at hd
    split at hd
    · rename_i hcond
      cases hd
      exact ⟨hcond.1, hcond.2⟩
    · cases hd
  · unfold mkParticleBunch
    split <;> simp_all
  · intro b hb
    unfold mkParticleBunch at hb
    split at hb
    · cases hb
      simp_all [ParticleBunch.wf, ParticleBunch.n]
    · cases hb

theorem eager_config_errors_witness :
    mkDrift (-1) 0 = none ∧
    mkParticleBunch [1] [] [] [] [] [] [] "b" = none ∧
    (0 : ℚ) < (1 : ℚ) ∧ 0 < 2 :=
  ⟨(eager_config_errors (-1) 0 [1] [] [] [] [] [] [] "b").1.mpr
     (by norm_num),
   (eager_config_errors (-1) 0 [1] [] [] [] [] [] [] "b").2.2.1.mpr
     (by decide),
   by
     have h := (eager_config_errors 1 2 [] [] [] [] [] [] [] "b").2.1
       ⟨1, 2⟩ (by norm_num [mkDrift])
     exact h⟩

/-- C10: a bunch constructed from the seven arrays `(q, x, y, z, px, py,
pz)` exposes the fourth positional array `z` under the attribute `xi`, and
the remaining arrays under `q`, `x`, `y`, `px`, `py`, `pz`, each equal to
the supplied array. -/
theorem bunch_exposes_z_as_xi (q x y z px py pz : List ℚ) (nm : String)
    (b : ParticleBunch)
    (hb : mkParticleBunch q x y z px py pz nm = some b) :
    b.xi = z ∧ b.q = q ∧ b.x = x ∧ b.y = y ∧ b.px = px ∧ b.py = py ∧
    b.pz = pz := by
  unfold mkParticleBunch at hb
  split at hb
  · cases hb
    exact ⟨rfl, rfl, rfl, rfl, rfl, rfl, rfl⟩
  · cases hb

theorem bunch_exposes_z_as_xi_witness :
    mkParticleBunch [1] [2] [3] [4] [5] [6] [7] "b" =
      some ⟨"b", [1], [2], [3], [4], [5], [6], [7], 0⟩ ∧
    ((⟨"b", [1], [2], [3], [4], [5], [6], [7], 0⟩ : ParticleBunch).xi =
        [4] ∧
     (⟨"b", [1], [2], [3], [4], [5], [6], [7], 0⟩ : ParticleBunch).q =
        [1] ∧
     (⟨"b", [1], [2], [3], [4], [5], [6], [7], 0⟩ : ParticleBunch).x =
        [2] ∧
     (⟨"b", [1], [2], [3], [4], [5], [6], [7], 0⟩ : ParticleBunch).y =
        [3] ∧
     (⟨"b", [1], [2], [3], [4], [5], [6], [7], 0⟩ : ParticleBunch).px =
        [5] ∧
     (⟨"b", [1], [2], [3], [4], [5], [6], [7], 0⟩ : ParticleBunch).py =
        [6] ∧
     (⟨"b", [1], [2], [3], [4], [5], [6], [7], 0⟩ : ParticleBunch).pz =
        [7]) := by
  have hb : mkParticleBunch [1] [2] [3] [4] [5] [6] [7] "b" =
      some ⟨"b", [1], [2], [3], [4], [5], [6], [7], 0⟩ := by
    norm_num [mkParticleBunch]
  exact ⟨hb, bunch_exposes_z_as_xi [1] [2] [3] [4] [5] [6] [7] "b" _ hb⟩

theorem write_data_ne (h : Heap) (id : ℕ) (v : List ℚ) (m : ℕ)
    (hm : m ≠ id) : (h.write id v).data m = h.data m := by
  simp [Heap.write, hm]

theorem writeBunch_data_notMem (h : Heap) (r : BunchRef)
    (b : ParticleBunch) (m : ℕ) (hm : m ∉ r.ids) :
    (h.writeBunch r b).data m = h.data m := by
  simp only [BunchRef.ids, List.mem_cons, List.not_mem_nil, or_false,
    not_or] at hm
  obtain ⟨e1, e2, e3, e4, e5, e6, e7⟩ := hm
  simp [Heap.writeBunch, Heap.write, e1, e2, e3, e4, e5, e6, e7]

theorem load_eq_of_data_eq (r : BunchRef) (h1 h2 : Heap)
    (hdata : ∀ id ∈ r.ids, h1.data id = h2.data id) :
    r.load h1 = r.load h2 := by
  simp only [BunchRef.ids, List.mem_cons, List.not_mem_nil, or_false,
    forall_eq_or_imp, forall_eq] at hdata
  obtain ⟨e1, e2, e3, e4, e5, e6, e7⟩ := hdata
  simp [BunchRef.load, e1, e2, e3, e4, e5, e6, e7]

theorem capture_next (h : Heap) (b : ParticleBunch) :
    (h.capture b).1.next = h.next + 7 := rfl

theorem capture_data_lt (h : Heap) (b : ParticleBunch) (m : ℕ)
    (hm : m < h.next) : (h.capture b).1.data m = h.data m := by
  simp only [Heap.capture]
  rw [if_neg (by omega), if_neg (by omega), if_neg (by omega),
    if_neg (by omega), if_neg (by omega), if_neg (by omega),
    if_neg (by omega)]

theorem capture_ids (h : Heap) (b : ParticleBunch) :
    (h.capture b).2.ids =
      [h.next, h.next + 1, h.next + 2, h.next + 3, h.next + 4,
       h.next + 5, h.next + 6] := rfl

theorem capture_load (h : Heap) (b : ParticleBunch) :
    (h.capture b).2.load (h.capture b).1 = b := by
  obtain ⟨nm, q, x, y, xi, px, py, pz, pd⟩ := b
  simp [Heap.capture, BunchRef.load]

theorem captureList_next (bs : List ParticleBunch) :
    ∀ h : Heap, (h.captureList bs).1.next = h.next + 7 * bs.length := by
  induction bs with
  | nil => intro h; simp [Heap.captureList]
  | cons b bs ih =>
    intro h
    simp only [Heap.captureList, List.length_cons]
    rw [ih (h.capture b).1, capture_next]
    ring

theorem captureList_length (bs : List ParticleBunch) :
    ∀ h : Heap, (h.captureList bs).2.length = bs.length := by
  induction bs with
  | nil => intro h; rfl
  | cons b bs ih =>
    intro h
    simp only [Heap.captureList, List.length_cons]
    rw [ih (h.capture b).1]

theorem captureList_data_lt (bs : List ParticleBunch) :
    ∀ (h : Heap) (m : ℕ), m < h.next →
      (h.captureList bs).1.data m = h.data m := by
  induction bs with
  | nil => intro h m _; rfl
  | cons b bs ih =>
    intro h m hm
    simp only [Heap.captureList]
    rw [ih (h.capture b).1 m (by rw [capture_next]; omega),
      capture_data_lt h b m hm]

theorem captureList_get (bs : List ParticleBunch) :
    ∀ (h : Heap) (k : ℕ) (r : BunchRef),
      ((h.captureList bs).2)[k]? = some r →
      (∀ id ∈ r.ids,
        h.next + 7 * k ≤ id ∧ id < h.next + 7 * k + 7) ∧
      bs[k]? = some (r.load (h.captureList bs).1) := by
  induction bs with
  | nil => intro h k r hr; simp [Heap.captureList] at hr
  | cons b bs ih =>
    intro h k r hr
    simp only [Heap.captureList] at hr ⊢
    cases k with
    | zero =>
      simp only [List.getElem?_cons_zero, Option.some.injEq] at hr
      subst hr
      constructor
      · intro id hid
        rw [capture_ids] at hid
        simp only [List.mem_cons, List.not_mem_nil, or_false] at hid
        rcases hid with hid | hid | hid | hid | hid | hid | hid <;> omega
      · simp only [List.getElem?_cons_zero, Option.some.injEq]
        have hpres : ∀ id ∈ (h.capture b).2.ids,
            ((h.capture b).1.captureList bs).1.data id =
              (h.capture b).1.data id := by
          intro id hid
          apply captureList_data_lt
          rw [capture_ids] at hid
          simp only [List.mem_cons, List.not_mem_nil, or_false] at hid
          rw [capture_next]
          rcases hid with hid | hid | hid | hid | hid | hid | hid <;> omega
        rw [load_eq_of_data_eq (h.capture b).2 _ _ hpres, capture_load]
    | succ k =>
      simp only [List.getElem?_cons_succ] at hr ⊢
      have hk := ih (h.capture b).1 k r hr
      constructor
      · intro id hid
        have hb := hk.1 id hid
        rw [capture_next] at hb
        omega
      · exact hk.2

theorem trackH_loads (d : Drift) (h : Heap) (r : BunchRef)
    (hr : r.wfIn h) :
    ((d.trackH h r).2).map (fun s => s.load (d.trackH h r).1) =
      d.track (r.load h) := by
  apply List.ext_getElem?
  intro k
  rw [List.getElem?_map]
  by_cases hk : k < (d.track (r.load h)).length
  · have hk2 : k < ((h.captureList (d.track (r.load h))).2).length := by
      rw [captureList_length]
      exact hk
    have hrk : ((h.captureList (d.track (r.load h))).2)[k]? =
        some (((h.captureList (d.track (r.load h))).2)[k]) :=
      List.getElem?_eq_getElem hk2
    have hget := captureList_get (d.track (r.load h)) h k _ hrk
    have hwb : ∀ id ∈ (((h.captureList (d.track (r.load h))).2)[k]).ids,
        ((d.trackH h r).1).data id =
          ((h.captureList (d.track (r.load h))).1).data id := by
      intro id hid
      have hb := hget.1 id hid
      apply writeBunch_data_notMem
      intro hmem
      have := hr id hmem
      omega
    rw [show (d.trackH h r).2 = (h.captureList (d.track (r.load h))).2
      from rfl]
    rw [hrk]
    simp only [Option.map_some']
    rw [load_eq_of_data_eq _ _ _ hwb]
    exact hget.2.symm
  · have hk2 : ¬ k < ((h.captureList (d.track (r.load h))).2).length := by
      rw [captureList_length]
      exact hk
    rw [show (d.trackH h r).2 = (h.captureList (d.track (r.load h))).2
      from rfl]
    rw [List.getElem?_eq_none (by omega), List.getElem?_eq_none (by omega)]
    rfl

/-- C6: with `n_out > 1`, each returned snapshot is an independent copy —
writing any value into any per-particle array cell of one snapshot leaves
every other snapshot, and the input bunch, bit-for-bit unchanged. -/
theorem snapshot_copy_independence (d : Drift) (h : Heap) (r : BunchRef)
    (hr : r.wfIn h) (_hn : 1 < d.n_out) (i j : ℕ) (hij : i ≠ j)
    (ri rj : BunchRef)
    (hri : (d.trackH h r).2[i]? = some ri)
    (hrj : (d.trackH h r).2[j]? = some rj)
    (id : ℕ) (hid : id ∈ ri.ids) (v : List ℚ) :
    rj.load (((d.trackH h r).1).write id v) =
      rj.load (d.trackH h r).1 ∧
    r.load (((d.trackH h r).1).write id v) =
      r.load (d.trackH h r).1 := by
  have hri2 : ((h.captureList (d.track (r.load h))).2)[i]? = some ri := hri
  have hrj2 : ((h.captureList (d.track (r.load h))).2)[j]? = some rj := hrj
  have hbi := (captureList_get (d.track (r.load h)) h i ri hri2).1 id hid
  have hbj := (captureList_get (d.track (r.load h)) h j rj hrj2).1
  constructor
  · apply load_eq_of_data_eq
    intro id2 hid2
    apply write_data_ne
    have := hbj id2 hid2
    omega
  · apply load_eq_of_data_eq
    intro id2 hid2
    apply write_data_ne
    have := hr id2 hid2
    omega

theorem snapshot_copy_independence_witness :
    sampleRef.wfIn sampleHeap ∧ 1 < (2 : ℕ) ∧ (0 : ℕ) ≠ 1 ∧
    ((⟨1/100, 2⟩ : Drift).trackH sampleHeap sampleRef).2[0]? =
      some sampleRi ∧
    ((⟨1/100, 2⟩ : Drift).trackH sampleHeap sampleRef).2[1]? =
      some sampleRj ∧
    1 ∈ sampleRi.ids ∧
    (sampleRj.load
        ((((⟨1/100, 2⟩ : Drift).trackH sampleHeap sampleRef).1).write 1
          [5]) =
      sampleRj.load ((⟨1/100, 2⟩ : Drift).trackH sampleHeap sampleRef).1 ∧
     sampleRef.load
        ((((⟨1/100, 2⟩ : Drift).trackH sampleHeap sampleRef).1).write 1
          [5]) =
      sampleRef.load
        ((⟨1/100, 2⟩ : Drift).trackH sampleHeap sampleRef).1) := by
  have h0 : ((⟨1/100, 2⟩ : Drift).trackH sampleHeap sampleRef).2[0]? =
      some sampleRi := by
    norm_num [Drift.trackH, Drift.track, Tracker.track, trackLoop,
      driftAdvance, Heap.captureList, Heap.capture, BunchRef.load,
      sampleHeap, sampleRef, sampleRi]
  have h1 : ((⟨1/100, 2⟩ : Drift).trackH sampleHeap sampleRef).2[1]? =
      some sampleRj := by
    norm_num [Drift.trackH, Drift.track, Tracker.track, trackLoop,
      driftAdvance, Heap.captureList, Heap.capture, BunchRef.load,
      sampleHeap, sampleRef, sampleRj]
  exact ⟨by decide, by decide, by decide, h0, h1, by decide,
    snapshot_copy_independence ⟨1/100, 2⟩ sampleHeap sampleRef (by decide)
      (by decide) 0 1 (by decide) sampleRi sampleRj h0 h1 1 (by decide)
      [5]⟩

/-- C9: tracking is deterministic and reproducible — two runs of the same
element on fresh copies of the same bunch (equal values, possibly laid out
at different heap cells) produce value-identical snapshot sequences. -/
theorem tracking_deterministic (d : Drift) (h1 h2 : Heap)
    (r1 r2 : BunchRef) (hr1 : r1.wfIn h1) (hr2 : r2.wfIn h2)
    (hcopy : r1.load h1 = r2.load h2) :
    ((d.trackH h1 r1).2).map (fun s => s.load (d.trackH h1 r1).1) =
      ((d.trackH h2 r2).2).map (fun s => s.load (d.trackH h2 r2).1) := by
  rw [trackH_loads d h1 r1 hr1, trackH_loads d h2 r2 hr2, hcopy]

theorem tracking_deterministic_witness :
    sampleRef.wfIn sampleHeap ∧ sampleRef2.wfIn sampleHeap2 ∧
    sampleRef.load sampleHeap = sampleRef2.load sampleHeap2 ∧
    (((⟨1/100, 2⟩ : Drift).trackH sampleHeap sampleRef).2).map
        (fun s =>
          s.load ((⟨1/100, 2⟩ : Drift).trackH sampleHeap sampleRef).1) =
      (((⟨1/100, 2⟩ : Drift).trackH sampleHeap2 sampleRef2).2).map
        (fun s =>
          s.load ((⟨1/100, 2⟩ : Drift).trackH sampleHeap2 sampleRef2).1) :=
  ⟨by decide, by decide, by decide,
   tracking_deterministic ⟨1/100, 2⟩ sampleHeap sampleHeap2 sampleRef
     sampleRef2 (by decide) (by decide) (by decide)⟩

end WakeT
